import Mathlib

/-!
# AutoBillTracker — verification of the bill lifecycle core

A shallow embedding of `src/main.ts` (the sole source file of the
AutoBillTracker repository) and proofs about it.  The program tracks bill
records: upsert with validation, delete, toggle-paid with recurrence
rollover, urgency classification, a filtered view with an unpaid total,
and a due-reminder selector.

Modelling conventions, stated once:
* JavaScript `Date` values at local midnight are modelled as calendar
  triples (`CivDate`); the local timezone is taken to be UTC, so
  `new Date("yyyy-mm-dd")` followed by `setHours(0,0,0,0)` is the triple
  itself.  A string for which `new Date` yields `Invalid Date` (a NaN
  timestamp) is modelled by `Option`: `none` stands for NaN, and the
  JavaScript comparisons `NaN < x`, `NaN <= x`, `NaN >= x` (all false)
  are the `js*` helpers below.
* `number` amounts are rationals; `Number(v)` applied to the raw form
  field is an `Option ℚ` argument (`none` = a non-finite parse).
* Timestamps produced by `new Date().toISOString()` are opaque strings
  passed in as `now` arguments.
* The ISO round-trip `toISOString().slice(0, 10)` in `nextRecurringDate`
  is the identity on the triple for the years the 10-character format
  covers (0..9999), which is the domain the 4-2-2 digit validation
  admits.
-/

/-! ## Calendar dates (`daysUntil`, `nextRecurringDate` in main.ts:60-78) -/

/-- A calendar triple as JavaScript `Date` components (1-based month).
The triple is unconstrained: the program's regex admits strings such as
"2024-13-45" whose triple is not a real calendar date. -/
structure CivDate where
  y : Int
  m : Int
  d : Int
deriving DecidableEq

/-- JavaScript leap-year rule (proleptic Gregorian). -/
def isLeapYear (y : Int) : Bool :=
  (y % 4 == 0 && y % 100 != 0) || y % 400 == 0

/-- Length of month `m` of year `y` in the Gregorian calendar. -/
def daysInMonth (y m : Int) : Int :=
  if m = 2 then (if isLeapYear y then 29 else 28)
  else if m = 4 ∨ m = 6 ∨ m = 9 ∨ m = 11 then 30
  else 31

/-- Whether the triple denotes a real calendar date.  `new Date` on a
"yyyy-mm-dd" string yields a number exactly for these triples and NaN
otherwise (ECMA-262 Date Time String Format: illegal element values give
NaN). -/
def isValidDate (dt : CivDate) : Bool :=
  decide (1 ≤ dt.m) && decide (dt.m ≤ 12) && decide (1 ≤ dt.d) &&
    decide (dt.d ≤ daysInMonth dt.y dt.m)

/-- Day-overflow normalisation used by the `Date` setters: a day count
beyond the month's length rolls into the following month.  For the
inputs `addMonthJS`/`addYearJS` produce (1 ≤ m ≤ 12, 1 ≤ d ≤ 31) a
single roll-over step suffices, since at most 3 days overflow and every
month has at least 28 days. -/
def normalizeDays (y m d : Int) : CivDate :=
  if d ≤ daysInMonth y m then ⟨y, m, d⟩
  else if m = 12 then ⟨y + 1, 1, d - daysInMonth y m⟩
  else ⟨y, m + 1, d - daysInMonth y m⟩

/-- Source `d.setMonth(d.getMonth() + 1)` on a valid date: advance the month,
rolling the year, then normalise the day (e.g. Jan 31 + 1 month = Mar 2
or Mar 3, exactly as JavaScript overflows Feb 31). -/
def addMonthJS (dt : CivDate) : CivDate :=
  if dt.m = 12 then normalizeDays (dt.y + 1) 1 dt.d
  else normalizeDays dt.y (dt.m + 1) dt.d

/-- Source `d.setFullYear(d.getFullYear() + 1)` on a valid date: advance the
year and normalise (Feb 29 of a leap year becomes Mar 1 of the non-leap
successor, as JavaScript overflows Feb 29). -/
def addYearJS (dt : CivDate) : CivDate :=
  normalizeDays (dt.y + 1) dt.m dt.d

/-- Strict calendar order on triples ("strictly later" in the spec). -/
def civLt (a b : CivDate) : Prop :=
  a.y < b.y ∨ (a.y = b.y ∧ (a.m < b.m ∨ (a.m = b.m ∧ a.d < b.d)))

/-- Day number of a valid triple (days-from-civil, shifted by 400 years
so the divisions act on non-negative values for every year ≥ -399; only
differences of day numbers are ever used). -/
def toDays (dt : CivDate) : Int :=
  let yy : Int := if dt.m ≤ 2 then dt.y + 399 else dt.y + 400
  let mm : Int := if dt.m ≤ 2 then dt.m + 9 else dt.m - 3
  yy * 365 + yy / 4 - yy / 100 + yy / 400 + (153 * mm + 2) / 5 + dt.d

/-- Source `daysUntil(dateStr)` (main.ts:60-67): the signed whole-day count
from `today` (midnight) to the due date (midnight).  `Math.round` of the
millisecond difference over 86400000 is exact for two midnights.  `none`
is the NaN the subtraction yields when `new Date(dateStr)` is an
Invalid Date. -/
def daysUntil (dt : CivDate) (today : CivDate) : Option Int :=
  if isValidDate dt then some (toDays dt - toDays today) else none

/-- JavaScript `x < c` where `x` may be NaN (`none`): false on NaN. -/
def jsLt (x : Option Int) (c : Int) : Bool :=
  match x with
  | some v => decide (v < c)
  | none => false

/-- JavaScript `x <= c` where `x` may be NaN: false on NaN. -/
def jsLe (x : Option Int) (c : Int) : Bool :=
  match x with
  | some v => decide (v ≤ c)
  | none => false

/-- JavaScript `x >= c` where `x` may be NaN: false on NaN. -/
def jsGe (x : Option Int) (c : Int) : Bool :=
  match x with
  | some v => decide (c ≤ v)
  | none => false

/-! ## String primitives

`trim()` and `toLowerCase()` are modelled character-wise so that every
definition evaluates by kernel reduction. -/

/-- JavaScript `s.trim()`: strip leading and trailing whitespace. -/
def trimJS (s : String) : String :=
  ⟨((s.toList.dropWhile Char.isWhitespace).reverse.dropWhile Char.isWhitespace).reverse⟩

/-- JavaScript `s.toLowerCase()`: lowercase character by character. -/
def toLowerJS (s : String) : String :=
  ⟨s.toList.map Char.toLower⟩

/-! ## The date-string validation (main.ts:299-301) -/

/-- Numeric value of a decimal digit character. -/
def digitVal (c : Char) : Int :=
  Int.ofNat c.toNat - 48

/-- The shape test `/^\d{4}-\d{2}-\d{2}$/` of `validateBillForm`
(main.ts:300), returning the triple the ten characters spell.  The test
is purely lexical: it does not look at the calendar. -/
def parseDateShape (s : String) : Option CivDate :=
  match s.toList with
  | [y1, y2, y3, y4, h1, m1, m2, h2, d1, d2] =>
    if y1.isDigit && y2.isDigit && y3.isDigit && y4.isDigit &&
        (h1 == '-') && m1.isDigit && m2.isDigit && (h2 == '-') &&
        d1.isDigit && d2.isDigit then
      some ⟨digitVal y1 * 1000 + digitVal y2 * 100 + digitVal y3 * 10 + digitVal y4,
            digitVal m1 * 10 + digitVal m2,
            digitVal d1 * 10 + digitVal d2⟩
    else none
  | _ => none

/-- Source `dateRegex.test(dueDate)`: whether the string matches the 4-2-2
digit shape. -/
def dateRegexTest (s : String) : Bool :=
  (parseDateShape s).isSome

/-! ## The Bill record and the form (main.ts:13-25, 30-45, 51-54, 290-342) -/

/-- Source `type Recurrence = "none" | "monthly" | "yearly"` (main.ts:13). -/
inductive Recurrence where
  | none
  | monthly
  | yearly
deriving DecidableEq

/-- The `Bill` record (main.ts:15-25).  `dueDate` is the triple the
stored "yyyy-mm-dd" string spells (see `parseDateShape`); `createdAt`
and `updatedAt` are opaque ISO timestamp strings. -/
structure Bill where
  id : String
  name : String
  amount : ℚ
  dueDate : CivDate
  recurrence : Recurrence
  notes : Option String
  paid : Bool
  createdAt : String
  updatedAt : String
deriving DecidableEq

/-- Source `parseMoney(v)` (main.ts:51-54): `Number(v)` clamped to 0, and 0 for
a non-finite parse (`none`). -/
def parseMoney (v : Option ℚ) : ℚ :=
  match v with
  | some n => max 0 n
  | none => 0

/-- The form fields as `upsertBillFromForm` reads them: raw `id`,
`name` and `notes` element values, the parsed `amount` element value
(`none` = `Number` returned NaN or an infinity), the raw `dueDate`
string and the recurrence selection. -/
structure BillForm where
  idField : String
  nameField : String
  amountField : Option ℚ
  dueField : String
  recurrenceField : Recurrence
  notesField : String
deriving DecidableEq

/-- Source `const id = idEl.value || uid()` (main.ts:314): an empty id field is
falsy, so a fresh uid is used. -/
def effectiveId (form : BillForm) (freshId : String) : String :=
  if form.idField = "" then freshId else form.idField

/-- Source `notesEl.value.trim() || undefined` (main.ts:324): a blank notes
field is stored as absent. -/
def notesOf (form : BillForm) : Option String :=
  if trimJS form.notesField = "" then none else some (trimJS form.notesField)

/-- Source `validateBillForm()` (main.ts:290-304): the error message, or `none`
when the form passes. -/
def validateBillForm (form : BillForm) : Option String :=
  if trimJS form.nameField = "" then some "Bill name is required"
  else if parseMoney form.amountField ≤ 0 then some "Amount must be greater than 0"
  else if form.dueField = "" then some "Due date is required"
  else if (parseDateShape form.dueField).isNone then some "Invalid due date format"
  else none

/-- The record literal of `upsertBillFromForm` (main.ts:318-328), given
the prior record found at the effective id (if any). -/
def mkRecord (form : BillForm) (dt : CivDate) (id : String) (prior : Option Bill)
    (now : String) : Bill :=
  { id := id
    name := trimJS form.nameField
    amount := parseMoney form.amountField
    dueDate := dt
    recurrence := form.recurrenceField
    notes := notesOf form
    paid := match prior with | some p => p.paid | Option.none => false
    createdAt := match prior with | some p => p.createdAt | Option.none => now
    updatedAt := now }

/-- Source `bills[existingIdx] = record` for the first index whose id matches
(`findIndex`, main.ts:316/330-334); callers only reach it when a match
exists. -/
def setFirst : List Bill → String → Bill → List Bill
  | [], _, _ => []
  | b :: rest, id, r => if b.id = id then r :: rest else b :: setFirst rest id r

/-- Source `upsertBillFromForm()` (main.ts:306-342) as a function of the store:
the new store and the returned success flag.  A validation error leaves
the store untouched and returns false; otherwise exactly one record is
replaced (first id match) or appended. -/
def upsertBillFromForm (bills : List Bill) (form : BillForm) (freshId now : String) :
    List Bill × Bool :=
  match validateBillForm form with
  | some _ => (bills, false)
  | Option.none =>
    match parseDateShape form.dueField with
    | Option.none => (bills, false)
    | some dt =>
      let id := effectiveId form freshId
      let prior := bills.find? (fun b => b.id == id)
      let record := mkRecord form dt id prior now
      match prior with
      | some _ => (setFirst bills id record, true)
      | Option.none => (bills ++ [record], true)

/-! ## Delete and toggle-paid (main.ts:399-443) -/

/-- The delete action (main.ts:416-423 with the `idx < 0` guard at
main.ts:407-408): remove the first record whose id matches; when none
matches the handler returns silently and the store is untouched.  The
`confirm` dialog is external and taken as accepted. -/
def deleteAction : List Bill → String → List Bill
  | [], _ => []
  | b :: rest, id => if b.id = id then rest else b :: deleteAction rest id

/-- Modelled from the spec: `delete(id) -> bool` (§4.2) — the boolean
the spec's store interface returns (true iff a record existed).  The
source handler (main.ts:416-423) returns nothing; the removal itself is
`deleteAction`. -/
def deleteReturn (bills : List Bill) (id : String) : Bool :=
  bills.any (fun b => b.id == id)

/-- Source `nextRecurringDate(dateStr, recurrence)` (main.ts:69-78).  For
`none` the string is returned unparsed.  Otherwise `new Date(dateStr)`
is taken: on a triple that is no calendar date it is an Invalid Date
and `toISOString()` throws a RangeError, modelled as `none`. -/
def nextRecurringDate (dt : CivDate) (r : Recurrence) : Option CivDate :=
  match r with
  | .none => some dt
  | .monthly => if isValidDate dt then some (addMonthJS dt) else none
  | .yearly => if isValidDate dt then some (addYearJS dt) else none

/-- The toggle-paid mutation on one record (main.ts:424-432): flip
`paid`, refresh `updatedAt`, and when the result is paid and recurring,
advance `dueDate` and reset `paid` in the same transition.  The flag is
true when `nextRecurringDate` threw; the partially mutated record (paid
flipped, `updatedAt` refreshed, due date untouched) is what the caught
exception leaves in the store. -/
def togglePaidBill (b : Bill) (now : String) : Bill × Bool :=
  let b1 : Bill := { b with paid := !b.paid, updatedAt := now }
  if b1.paid = true ∧ b.recurrence ≠ .none then
    match nextRecurringDate b.dueDate b.recurrence with
    | some nd => ({ b1 with dueDate := nd, paid := false }, false)
    | Option.none => (b1, true)
  else (b1, false)

/-- The toggle-paid action on the store (main.ts:424-437 with the
`idx < 0` guard at main.ts:407-408): mutate the first record whose id
matches; when none matches the handler returns silently — no error is
raised and the store is untouched.  The flag reports a thrown
exception. -/
def toggleAction : List Bill → String → String → List Bill × Bool
  | [], _, _ => ([], false)
  | b :: rest, id, now =>
    if b.id = id then
      let r := togglePaidBill b now
      (r.1 :: rest, r.2)
    else
      let r := toggleAction rest id now
      (b :: r.1, r.2)

/-! ## Urgency classification and the view (main.ts:147-210) -/

/-- The four urgency classes the render assigns (`dueClass`,
main.ts:172-178): the CSS class strings "paid" / "overdue" / "due" /
"ok"; "due" is the spec's due-soon. -/
inductive DueClass where
  | paid
  | overdue
  | due
  | ok
deriving DecidableEq

/-- The `dueClass` chain of ternaries (main.ts:172-178): paid wins, then
`d < 0` is overdue, then `d <= 7` is due-soon, else ok. -/
def dueClass (b : Bill) (today : CivDate) : DueClass :=
  if b.paid then .paid
  else if jsLt (daysUntil b.dueDate today) 0 then .overdue
  else if jsLe (daysUntil b.dueDate today) 7 then .due
  else .ok

/-- The status filter select (`#filter-status`): its five option values
as `render` compares them (main.ts:158-162); any other value behaves as
`all`. -/
inductive StatusFilter where
  | due
  | overdue
  | paid
  | unpaid
  | all
deriving DecidableEq

/-- Search loop `pat.isPrefixOf s || hasSub t pat` — JavaScript
`String.prototype.includes`: whether `pat` occurs contiguously in `s`. -/
def hasSub : List Char → List Char → Bool
  | s, pat =>
    match s with
    | [] => pat.isEmpty
    | _ :: t => pat.isPrefixOf s || hasSub t pat

/-- JavaScript `s.includes(pat)` on strings. -/
def strIncludes (s pat : String) : Bool :=
  hasSub s.toList pat.toList

/-- The filter predicate of `render` (main.ts:152-163): the text match
on lowercased name/notes against the already-lowercased query, then the
status case.  `b.notes ?? ""` is `Option.getD`. -/
def renderPred (q : String) (status : StatusFilter) (today : CivDate) (b : Bill) : Bool :=
  let matchesQ := strIncludes (toLowerJS b.name) q || strIncludes (toLowerJS (b.notes.getD "")) q
  if !matchesQ then false
  else
    match status with
    | .due => !b.paid && jsGe (daysUntil b.dueDate today) 0 && jsLe (daysUntil b.dueDate today) 7
    | .overdue => !b.paid && jsLt (daysUntil b.dueDate today) 0
    | .paid => b.paid
    | .unpaid => !b.paid
    | .all => true

/-- The view `render` computes (main.ts:147-210): the filtered list in
store order (`q` is `searchEl.value.toLowerCase()` applied inside), the
count shown in `#total-count`, and the running total that skips paid
records (main.ts:167-168). -/
def render (bills : List Bill) (query : String) (status : StatusFilter) (today : CivDate) :
    List Bill × Nat × ℚ :=
  let filtered := bills.filter (renderPred (toLowerJS query) status today)
  let total := filtered.foldl (fun acc b => if b.paid then acc else acc + b.amount) 0
  (filtered, filtered.length, total)

/-! ## The due-reminder selection (main.ts:253-288) -/

/-- The `dueNow` filter of `maybeNotifyDue` (main.ts:262-266): unpaid
and due today or up to 3 days overdue.  This is the spec's
`selectDue`. -/
def selectDue (bills : List Bill) (today : CivDate) : List Bill :=
  bills.filter (fun b =>
    !b.paid && jsLe (daysUntil b.dueDate today) 0 && jsGe (daysUntil b.dueDate today) (-3))

/-- Source `days === 0 ? "today" : \`${-days}d overdue\`` (main.ts:274): on a NaN
day count JavaScript renders "NaNd overdue". -/
def dueTextOf (days : Option Int) : String :=
  match days with
  | some d => if d = 0 then "today" else toString (-d) ++ "d overdue"
  | none => "NaNd overdue"

/-- One line of the notification body (main.ts:272-276):
`` `${b.name} (${fmtMoney(b.amount)}) ${dueText}` ``.  `fmtMoney` is
locale currency formatting (main.ts:56-58), taken as a parameter. -/
def fmtLine (fmtMoney : ℚ → String) (today : CivDate) (b : Bill) : String :=
  b.name ++ " (" ++ fmtMoney b.amount ++ ") " ++ dueTextOf (daysUntil b.dueDate today)

/-- The notification `maybeNotifyDue` sends (main.ts:262-282), given
permission: `none` when `dueNow` is empty (no notification fires), else
the title and the body built from the first 4 entries joined with
newlines. -/
def notifyPayload (bills : List Bill) (today : CivDate) (fmtMoney : ℚ → String) :
    Option (String × String) :=
  let dueNow := selectDue bills today
  if dueNow.length = 0 then none
  else
    some (toString dueNow.length ++ " Bill" ++ (if dueNow.length > 1 then "s" else "") ++ " Due",
          String.intercalate "\n" ((dueNow.take 4).map (fmtLine fmtMoney today)))

/-! ## Claim-side definitions

These restate, in the words of the specification, the predicates the
claims quantify over; the theorems below compare them with the
definitions translated from the source. -/

/-- Spec §4.4 step 1: the bill's lowercased name or notes (empty string
if absent) contains the lowercased query as a substring. -/
def specTextMatch (query : String) (b : Bill) : Bool :=
  strIncludes (toLowerJS b.name) (toLowerJS query) ||
    strIncludes (toLowerJS (b.notes.getD "")) (toLowerJS query)

/-- Spec §4.4 step 2: the status filter on top of the text match, with
the day count as the claim reads it (an integer that exists only for a
real calendar date). -/
def specStatusMatch (status : StatusFilter) (today : CivDate) (b : Bill) : Bool :=
  match status with
  | .due => !b.paid && (match daysUntil b.dueDate today with
      | some d => decide (0 ≤ d) && decide (d ≤ 7)
      | none => false)
  | .overdue => !b.paid && (match daysUntil b.dueDate today with
      | some d => decide (d < 0)
      | none => false)
  | .paid => b.paid
  | .unpaid => !b.paid
  | .all => true

/-- Spec §4.4: visible = text match and status filter. -/
def specVisible (query : String) (status : StatusFilter) (today : CivDate) (b : Bill) : Bool :=
  specTextMatch query b && specStatusMatch status today b

/-- Spec §4.5: unpaid and `-3 <= daysUntil(dueDate) <= 0`. -/
def specSelectDue (today : CivDate) (b : Bill) : Bool :=
  !b.paid && (match daysUntil b.dueDate today with
    | some d => decide (-3 ≤ d) && decide (d ≤ 0)
    | none => false)

/-! ## Reachable store states

The store starts empty (`bills = []`, main.ts:45) and is mutated only by
the form-submit upsert, the delete action and the toggle-paid action.
`Reach` closes the empty store under those operations, restricted to the
inserting upserts (fresh effective id) whose due-date string spells a
real calendar date — the restriction the corrected claim C2 needs. -/

/-- The invariant of claim C2 together with the date validity that
keeps it inductive. -/
def StoreInv (bills : List Bill) : Prop :=
  ∀ b ∈ bills, isValidDate b.dueDate = true ∧
    (b.recurrence ≠ Recurrence.none → b.paid = false)

/-- States reachable from the empty store by inserting upserts (fresh
effective id, calendar-valid due date), deletes and toggles. -/
inductive Reach : List Bill → Prop where
  | init : Reach []
  | insert (bills : List Bill) (form : BillForm) (freshId now : String)
      (h : Reach bills)
      (hfresh : ∀ b ∈ bills, b.id ≠ effectiveId form freshId)
      (hdate : ∀ dt, parseDateShape form.dueField = some dt → isValidDate dt = true) :
      Reach (upsertBillFromForm bills form freshId now).1
  | del (bills : List Bill) (id : String) (h : Reach bills) :
      Reach (deleteAction bills id)
  | toggle (bills : List Bill) (id now : String) (h : Reach bills) :
      Reach (toggleAction bills id now).1

/-! ## Calendar lemmas -/

theorem daysInMonth_lb (y m : Int) : 28 ≤ daysInMonth y m := by
  unfold daysInMonth
  split
  · split <;> omega
  · split <;> omega

theorem daysInMonth_ub (y m : Int) : daysInMonth y m ≤ 31 := by
  unfold daysInMonth
  split
  · split <;> omega
  · split <;> omega

theorem isValidDate_iff (y m d : Int) :
    isValidDate ⟨y, m, d⟩ = true ↔
      1 ≤ m ∧ m ≤ 12 ∧ 1 ≤ d ∧ d ≤ daysInMonth y m := by
  simp [isValidDate, and_assoc]

theorem isValidDate_normalizeDays (y m d : Int)
    (h1 : 1 ≤ m) (h2 : m ≤ 12) (h3 : 1 ≤ d) (h4 : d ≤ 31) :
    isValidDate (normalizeDays y m d) = true := by
  have lb := daysInMonth_lb y m
  unfold normalizeDays
  split
  · rw [isValidDate_iff]
    exact ⟨h1, h2, h3, by assumption⟩
  · split
    · have lb2 := daysInMonth_lb (y + 1) 1
      rw [isValidDate_iff]
      exact ⟨by omega, by omega, by omega, by omega⟩
    · have lb2 := daysInMonth_lb y (m + 1)
      rw [isValidDate_iff]
      exact ⟨by omega, by omega, by omega, by omega⟩

theorem isValidDate_addMonthJS (dt : CivDate) (h : isValidDate dt = true) :
    isValidDate (addMonthJS dt) = true := by
  obtain ⟨y, m, d⟩ := dt
  rw [isValidDate_iff] at h
  have hub := daysInMonth_ub y m
  unfold addMonthJS
  dsimp only
  split
  · exact isValidDate_normalizeDays _ _ _ (by omega) (by omega) (by omega) (by omega)
  · exact isValidDate_normalizeDays _ _ _ (by omega) (by omega) (by omega) (by omega)

theorem isValidDate_addYearJS (dt : CivDate) (h : isValidDate dt = true) :
    isValidDate (addYearJS dt) = true := by
  obtain ⟨y, m, d⟩ := dt
  rw [isValidDate_iff] at h
  have hub := daysInMonth_ub y m
  unfold addYearJS
  dsimp only
  exact isValidDate_normalizeDays _ _ _ (by omega) (by omega) (by omega) (by omega)

theorem civLt_addMonthJS (dt : CivDate) : civLt dt (addMonthJS dt) := by
  obtain ⟨y, m, d⟩ := dt
  simp only [addMonthJS, normalizeDays, civLt]
  split_ifs <;> (dsimp only; omega)

theorem civLt_addYearJS (dt : CivDate) : civLt dt (addYearJS dt) := by
  obtain ⟨y, m, d⟩ := dt
  simp only [addYearJS, normalizeDays, civLt]
  split_ifs <;> (dsimp only; omega)

/-! ## List lemmas about the store operations -/

theorem hasSub_iff (s pat : List Char) :
    hasSub s pat = true ↔ ∃ l r, s = l ++ pat ++ r := by
  induction s with
  | nil =>
    constructor
    · intro h
      simp only [hasSub, List.isEmpty_iff] at h
      exact ⟨[], [], by simp [h]⟩
    · rintro ⟨l, r, hlr⟩
      have hl : l = [] ∧ pat = [] := by
        constructor <;> (cases l <;> cases pat <;> simp_all)
      simp [hasSub, hl.2]
  | cons c t ih =>
    simp only [hasSub, Bool.or_eq_true, List.isPrefixOf_iff_prefix, ih]
    constructor
    · rintro (⟨r, hr⟩ | ⟨l, r, rfl⟩)
      · exact ⟨[], r, by simp [hr]⟩
      · exact ⟨c :: l, r, rfl⟩
    · rintro ⟨l, r, hlr⟩
      cases l with
      | nil =>
        exact Or.inl ⟨r, by simpa using hlr.symm⟩
      | cons x l' =>
        right
        rw [List.cons_append, List.cons_append] at hlr
        obtain ⟨-, ht⟩ := List.cons.injEq .. ▸ hlr
        exact ⟨l', r, ht⟩

theorem strIncludes_iff (s pat : String) :
    strIncludes s pat = true ↔ ∃ l r, s.toList = l ++ pat.toList ++ r :=
  hasSub_iff s.toList pat.toList

theorem find?_id_append (pre post : List Bill) (p : Bill) (id : String)
    (hp : p.id = id) (hpre : ∀ x ∈ pre, x.id ≠ id) :
    (pre ++ p :: post).find? (fun b => b.id == id) = some p := by
  induction pre with
  | nil => simp [List.find?, hp]
  | cons a t ih =>
    have ha : (a.id == id) = false := by
      simp only [beq_eq_false_iff_ne, ne_eq]
      exact hpre a (List.mem_cons_self a t)
    simp only [List.cons_append, List.find?, ha]
    exact ih fun x hx => hpre x (List.mem_cons_of_mem a hx)

theorem find?_id_none (bills : List Bill) (id : String)
    (h : ∀ b ∈ bills, b.id ≠ id) :
    bills.find? (fun b => b.id == id) = none := by
  rw [List.find?_eq_none]
  intro x hx
  simpa using h x hx

theorem setFirst_append (pre post : List Bill) (p r : Bill) (id : String)
    (hp : p.id = id) (hpre : ∀ x ∈ pre, x.id ≠ id) :
    setFirst (pre ++ p :: post) id r = pre ++ r :: post := by
  induction pre with
  | nil => simp [setFirst, hp]
  | cons a t ih =>
    have ha : a.id ≠ id := hpre a (List.mem_cons_self a t)
    simp only [List.cons_append, setFirst, if_neg ha, List.append_eq]
    rw [ih fun x hx => hpre x (List.mem_cons_of_mem a hx)]

theorem mem_deleteAction (bills : List Bill) (id : String) (x : Bill)
    (hx : x ∈ deleteAction bills id) : x ∈ bills := by
  induction bills with
  | nil => simp [deleteAction] at hx
  | cons b rest ih =>
    simp only [deleteAction] at hx
    split at hx
    · exact List.mem_cons_of_mem b hx
    · rcases List.mem_cons.mp hx with h | h
      · exact h ▸ List.mem_cons_self b rest
      · exact List.mem_cons_of_mem b (ih h)

theorem deleteAction_of_absent (bills : List Bill) (id : String)
    (h : ∀ b ∈ bills, b.id ≠ id) : deleteAction bills id = bills := by
  induction bills with
  | nil => rfl
  | cons b rest ih =>
    have hb : b.id ≠ id := h b (List.mem_cons_self b rest)
    simp only [deleteAction, if_neg hb]
    rw [ih fun x hx => h x (List.mem_cons_of_mem b hx)]

theorem deleteAction_eq_filter (bills : List Bill) (id : String)
    (h : (bills.map Bill.id).Nodup) :
    deleteAction bills id = bills.filter (fun b => !(b.id == id)) := by
  induction bills with
  | nil => rfl
  | cons b rest ih =>
    rw [List.map_cons, List.nodup_cons] at h
    by_cases hb : b.id = id
    · simp only [deleteAction, if_pos hb]
      rw [List.filter_cons_of_neg (by simpa using hb)]
      symm
      rw [List.filter_eq_self]
      intro a ha
      simp only [Bool.not_eq_true', beq_eq_false_iff_ne, ne_eq]
      intro haid
      refine h.1 ?_
      rw [hb, ← haid]
      exact List.mem_map_of_mem Bill.id ha
    · simp only [deleteAction, if_neg hb]
      rw [List.filter_cons_of_pos (by simpa using hb), ih h.2]

theorem mem_toggleAction (bills : List Bill) (id now : String) (x : Bill)
    (hx : x ∈ (toggleAction bills id now).1) :
    x ∈ bills ∨ ∃ b ∈ bills, (togglePaidBill b now).1 = x := by
  induction bills with
  | nil => simp [toggleAction] at hx
  | cons b rest ih =>
    simp only [toggleAction] at hx
    split at hx
    · rcases List.mem_cons.mp hx with h | h
      · exact Or.inr ⟨b, List.mem_cons_self b rest, h.symm⟩
      · exact Or.inl (List.mem_cons_of_mem b h)
    · rcases List.mem_cons.mp hx with h | h
      · exact Or.inl (h ▸ List.mem_cons_self b rest)
      · rcases ih h with h' | ⟨p, hp, hpe⟩
        · exact Or.inl (List.mem_cons_of_mem b h')
        · exact Or.inr ⟨p, List.mem_cons_of_mem b hp, hpe⟩

theorem toggleAction_of_absent (bills : List Bill) (id now : String)
    (h : ∀ b ∈ bills, b.id ≠ id) :
    toggleAction bills id now = (bills, false) := by
  induction bills with
  | nil => rfl
  | cons b rest ih =>
    have hb : b.id ≠ id := h b (List.mem_cons_self b rest)
    simp only [toggleAction, if_neg hb]
    rw [ih fun x hx => h x (List.mem_cons_of_mem b hx)]

theorem toggleAction_append (pre post : List Bill) (p : Bill) (id now : String)
    (hp : p.id = id) (hpre : ∀ x ∈ pre, x.id ≠ id) :
    toggleAction (pre ++ p :: post) id now =
      ((pre ++ (togglePaidBill p now).1 :: post), (togglePaidBill p now).2) := by
  induction pre with
  | nil => simp [toggleAction, hp]
  | cons a t ih =>
    have ha : a.id ≠ id := hpre a (List.mem_cons_self a t)
    simp only [List.cons_append, toggleAction, if_neg ha, List.append_eq]
    rw [ih fun x hx => hpre x (List.mem_cons_of_mem a hx)]

theorem foldl_unpaid_total (l : List Bill) (a : ℚ) :
    l.foldl (fun acc b => if b.paid then acc else acc + b.amount) a =
      a + ((l.filter (fun b => !b.paid)).map Bill.amount).sum := by
  induction l generalizing a with
  | nil => simp
  | cons b t ih =>
    by_cases hb : b.paid
    · rw [List.foldl_cons, if_pos hb, List.filter_cons_of_neg (by simp [hb]), ih]
    · rw [List.foldl_cons, if_neg hb, List.filter_cons_of_pos (by simp [hb]), ih,
        List.map_cons, List.sum_cons]
      ring

/-! ## Toggle-paid computation lemmas -/

theorem togglePaidBill_unpaid_rec (b : Bill) (now : String) (hpaid : b.paid = false)
    (hrec : b.recurrence ≠ Recurrence.none) (nd : CivDate)
    (hnd : nextRecurringDate b.dueDate b.recurrence = some nd) :
    togglePaidBill b now = ({ b with dueDate := nd, paid := false, updatedAt := now }, false) := by
  unfold togglePaidBill
  simp only [hpaid, Bool.not_false]
  split_ifs with hc
  · rw [hnd]
  · exact absurd ⟨by trivial, hrec⟩ hc

theorem togglePaidBill_unpaid_none (b : Bill) (now : String) (hpaid : b.paid = false)
    (hrec : b.recurrence = Recurrence.none) :
    togglePaidBill b now = ({ b with paid := true, updatedAt := now }, false) := by
  simp only [togglePaidBill, hpaid, Bool.not_false]
  rw [if_neg (fun hc => hc.2 hrec)]

theorem togglePaidBill_paid (b : Bill) (now : String) (hpaid : b.paid = true) :
    togglePaidBill b now = ({ b with paid := false, updatedAt := now }, false) := by
  simp only [togglePaidBill, hpaid, Bool.not_true]
  rw [if_neg (fun hc => Bool.false_ne_true hc.1)]

theorem nextRecurringDate_isSome (dt : CivDate) (r : Recurrence)
    (hv : isValidDate dt = true) :
    (nextRecurringDate dt r).isSome = true := by
  cases r <;> simp [nextRecurringDate, hv]

theorem civLt_nextRecurringDate (dt : CivDate) (r : Recurrence) (nd : CivDate)
    (hrec : r ≠ Recurrence.none)
    (hnd : nextRecurringDate dt r = some nd) : civLt dt nd := by
  cases r with
  | none => exact absurd rfl hrec
  | monthly =>
    simp only [nextRecurringDate] at hnd
    split at hnd
    · exact Option.some.inj hnd ▸ civLt_addMonthJS dt
    · exact absurd hnd (Option.noConfusion)
  | yearly =>
    simp only [nextRecurringDate] at hnd
    split at hnd
    · exact Option.some.inj hnd ▸ civLt_addYearJS dt
    · exact absurd hnd (Option.noConfusion)

theorem isValidDate_nextRecurringDate (dt : CivDate) (r : Recurrence) (nd : CivDate)
    (hv : isValidDate dt = true)
    (hnd : nextRecurringDate dt r = some nd) : isValidDate nd = true := by
  cases r with
  | none =>
    simp only [nextRecurringDate] at hnd
    exact Option.some.inj hnd ▸ hv
  | monthly =>
    simp only [nextRecurringDate, hv, if_true] at hnd
    exact Option.some.inj hnd ▸ isValidDate_addMonthJS dt hv
  | yearly =>
    simp only [nextRecurringDate, hv, if_true] at hnd
    exact Option.some.inj hnd ▸ isValidDate_addYearJS dt hv

/-! ## Claim C1 — the unpaid toggle-paid transition -/

/-- C1: for every stored bill that is unpaid (with a calendar-valid due
date, the only dates the data model admits), toggle-paid is a single
atomic transition — one application of `togglePaidBill`, with no
intermediate state: when `recurrence ≠ none` the produced record has
`paid = false` and `dueDate = nextOccurrence(prior dueDate, recurrence)`
(which always exists and is strictly later than the prior due date), and
when `recurrence = none` it has `paid = true` with `dueDate` unchanged;
in both cases `updatedAt` is refreshed to `now` and no exception is
thrown. -/
theorem togglePaid_unpaid_atomic (b : Bill) (now : String)
    (hpaid : b.paid = false) (hv : isValidDate b.dueDate = true) :
    ((nextRecurringDate b.dueDate b.recurrence).isSome = true)
  ∧ (∀ nd, b.recurrence ≠ Recurrence.none →
      nextRecurringDate b.dueDate b.recurrence = some nd →
        togglePaidBill b now =
          ({ b with dueDate := nd, paid := false, updatedAt := now }, false)
        ∧ civLt b.dueDate nd)
  ∧ (b.recurrence = Recurrence.none →
      togglePaidBill b now = ({ b with paid := true, updatedAt := now }, false)) := by
  refine ⟨nextRecurringDate_isSome _ _ hv, ?_, ?_⟩
  · intro nd hrec hnd
    exact ⟨togglePaidBill_unpaid_rec b now hpaid hrec nd hnd,
           civLt_nextRecurringDate _ _ _ hrec hnd⟩
  · intro hrec
    exact togglePaidBill_unpaid_none b now hpaid hrec

/-- A concrete unpaid monthly bill due 2024-01-31, for the C1 witness. -/
def c1Bill : Bill :=
  { id := "a", name := "Rent", amount := 10, dueDate := ⟨2024, 1, 31⟩,
    recurrence := Recurrence.monthly, notes := Option.none, paid := false,
    createdAt := "T0", updatedAt := "T0" }

/-- Witness for C1: toggling the unpaid monthly bill due 2024-01-31
advances it to 2024-03-02 (JavaScript's Feb 31 overflow), keeps it
unpaid, refreshes `updatedAt`, and the new due date is strictly later. -/
theorem togglePaid_unpaid_atomic_witness :
    togglePaidBill c1Bill "T1" =
      ({ id := "a", name := "Rent", amount := 10, dueDate := ⟨2024, 3, 2⟩,
         recurrence := Recurrence.monthly, notes := Option.none, paid := false,
         createdAt := "T0", updatedAt := "T1" }, false)
    ∧ civLt ⟨2024, 1, 31⟩ ⟨2024, 3, 2⟩ := by
  have h := (togglePaid_unpaid_atomic c1Bill "T1" rfl (by decide)).2.1
    ⟨2024, 3, 2⟩ (by decide) (by decide)
  exact ⟨h.1, h.2⟩

/-! ## Claim C3 — toggle-paid on an absent id -/

/-- A stored bill used by the C3 counterexample. -/
def c3Bill : Bill :=
  { id := "b3", name := "Water", amount := 20, dueDate := ⟨2024, 5, 1⟩,
    recurrence := Recurrence.none, notes := Option.none, paid := false,
    createdAt := "T0", updatedAt := "T0" }

/-- Counterexample to C3 as stated: the toggle handler, asked for an id
that is not in the store, completes normally — it raises no error
(flag false, and no `NotFoundError` exists anywhere in the handler,
which bails out with a plain `return` at main.ts:408) and leaves the
store unchanged.  The claim says this situation "fails with a
NotFoundError (it is an error, not a silent no-op)". -/
theorem togglePaid_absent_completes_normally :
    toggleAction [c3Bill] "missing" "T9" = ([c3Bill], false) := by decide

/-- C3 amended: for every id not present in the collection, the
toggle-paid action is a silent no-op — the handler returns without
raising any error and the collection is unchanged. -/
theorem togglePaid_absent_silent_noop (bills : List Bill) (id now : String)
    (h : ∀ b ∈ bills, b.id ≠ id) :
    toggleAction bills id now = (bills, false) :=
  toggleAction_of_absent bills id now h

/-- Witness for the amended C3 on a concrete store. -/
theorem togglePaid_absent_silent_noop_witness :
    toggleAction [] "missing" "T9" = ([], false) :=
  togglePaid_absent_silent_noop [] "missing" "T9" (by simp)

/-! ## Claim C9 — delete is an idempotent no-op on absent ids -/

/-- C9: under the store's id-uniqueness invariant, `delete(id)` removes
exactly the records with that id (`deleteReturn`, the spec's boolean,
is true exactly when one existed), is a no-op raising no error when the
id is absent, and is idempotent: a second delete of the same id changes
nothing. -/
theorem delete_idempotent_spec (bills : List Bill) (id : String)
    (hnd : (bills.map Bill.id).Nodup) :
    (deleteReturn bills id = true ↔ ∃ b ∈ bills, b.id = id)
  ∧ deleteAction bills id = bills.filter (fun b => !(b.id == id))
  ∧ ((∀ b ∈ bills, b.id ≠ id) → deleteAction bills id = bills)
  ∧ deleteAction (deleteAction bills id) id = deleteAction bills id := by
  have hfil := deleteAction_eq_filter bills id hnd
  refine ⟨?_, hfil, deleteAction_of_absent bills id, ?_⟩
  · simp [deleteReturn, List.any_eq_true]
  · rw [hfil]
    apply deleteAction_of_absent
    intro b hb
    have := (List.mem_filter.mp hb).2
    simpa using this

/-- Bills used by the C9 witness. -/
def c9Bill1 : Bill :=
  { id := "d1", name := "Gym", amount := 30, dueDate := ⟨2024, 7, 1⟩,
    recurrence := Recurrence.monthly, notes := Option.none, paid := false,
    createdAt := "T0", updatedAt := "T0" }

/-- Second bill used by the C9 witness. -/
def c9Bill2 : Bill :=
  { id := "d2", name := "Phone", amount := 40, dueDate := ⟨2024, 7, 2⟩,
    recurrence := Recurrence.none, notes := Option.none, paid := true,
    createdAt := "T0", updatedAt := "T0" }

/-- Witness for C9: deleting "d1" removes exactly that record, reports
true, and a second delete of "d1" changes nothing. -/
theorem delete_idempotent_spec_witness :
    deleteAction [c9Bill1, c9Bill2] "d1" = [c9Bill2]
  ∧ deleteAction (deleteAction [c9Bill1, c9Bill2] "d1") "d1" =
      deleteAction [c9Bill1, c9Bill2] "d1"
  ∧ deleteReturn [c9Bill1, c9Bill2] "d1" = true := by
  have h := delete_idempotent_spec [c9Bill1, c9Bill2] "d1" (by decide)
  exact ⟨h.2.1.trans (by decide), h.2.2.2, by decide⟩

/-! ## Claim C7 — validation rejects before any mutation -/

theorem validateBillForm_eq_none_iff (form : BillForm) :
    validateBillForm form = Option.none ↔
      ¬(trimJS form.nameField = "" ∨ parseMoney form.amountField ≤ 0 ∨
        dateRegexTest form.dueField = false) := by
  unfold validateBillForm
  split_ifs with h1 h2 h3 h4
  · simp [h1]
  · simp [h2]
  · have hre : dateRegexTest form.dueField = false := by rw [h3]; rfl
    simp [hre]
  · simp only [Option.isNone_iff_eq_none] at h4
    simp [dateRegexTest, h4]
  · simp only [Option.isNone_iff_eq_none] at h4
    simp [h1, h2, dateRegexTest, Option.isSome_iff_ne_none, h4]

/-- C7: the upsert fails (returns false after `showError`) exactly when
the trimmed name is empty, the parsed amount is ≤ 0, or the due-date
string fails the 4-2-2 digit format test — and on such a failure the
collection is left completely unchanged: validation runs before any
mutation. -/
theorem upsert_validation_spec (bills : List Bill) (form : BillForm) (freshId now : String) :
    ((upsertBillFromForm bills form freshId now).2 = false ↔
      (trimJS form.nameField = "" ∨ parseMoney form.amountField ≤ 0 ∨
        dateRegexTest form.dueField = false))
  ∧ ((upsertBillFromForm bills form freshId now).2 = false →
      (upsertBillFromForm bills form freshId now).1 = bills) := by
  by_cases hv : validateBillForm form = Option.none
  · have hcond := (validateBillForm_eq_none_iff form).mp hv
    have hdt : ∃ dt, parseDateShape form.dueField = some dt := by
      rcases h : parseDateShape form.dueField with _ | dt
      · exact absurd (Or.inr (Or.inr (by simp [dateRegexTest, h]))) hcond
      · exact ⟨dt, rfl⟩
    obtain ⟨dt, hdt⟩ := hdt
    rcases hp : bills.find? (fun b => b.id == effectiveId form freshId) with _ | p
    · constructor
      · simp only [upsertBillFromForm, hv, hdt, hp]
        simpa using hcond
      · intro hfalse
        simp only [upsertBillFromForm, hv, hdt, hp] at hfalse
        exact absurd hfalse (by simp)
    · constructor
      · simp only [upsertBillFromForm, hv, hdt, hp]
        simpa using hcond
      · intro hfalse
        simp only [upsertBillFromForm, hv, hdt, hp] at hfalse
        exact absurd hfalse (by simp)
  · rcases h : validateBillForm form with _ | msg
    · exact absurd h hv
    have hcond : trimJS form.nameField = "" ∨ parseMoney form.amountField ≤ 0 ∨
        dateRegexTest form.dueField = false := by
      by_contra hc
      exact hv ((validateBillForm_eq_none_iff form).mpr hc)
    constructor
    · simp only [upsertBillFromForm, h]
      simpa using hcond
    · intro _
      simp only [upsertBillFromForm, h]

/-! ## Claim C8 — upsert replaces or inserts exactly one record -/

/-- C8: for a valid upsert (validation passes; `dt` is the triple the
due-date string spells): when the effective id is already in the
collection, exactly that first matching record is replaced — the new
record keeps the prior `paid` and `createdAt`, takes the form's name
(trimmed), amount (parsed), due date, recurrence and notes, and sets
`updatedAt := now` — while every other bill (the `pre`/`post` context)
is unchanged; when the id is new, exactly one record is appended with
`paid = false` and `createdAt = updatedAt = now`. -/
theorem upsert_frame_spec (bills : List Bill) (form : BillForm) (freshId now : String)
    (dt : CivDate)
    (hval : validateBillForm form = Option.none)
    (hdt : parseDateShape form.dueField = some dt) :
    (∀ pre p post, bills = pre ++ p :: post → p.id = effectiveId form freshId →
        (∀ x ∈ pre, x.id ≠ effectiveId form freshId) →
        upsertBillFromForm bills form freshId now =
          (pre ++ { id := effectiveId form freshId, name := trimJS form.nameField,
                    amount := parseMoney form.amountField, dueDate := dt,
                    recurrence := form.recurrenceField, notes := notesOf form,
                    paid := p.paid, createdAt := p.createdAt, updatedAt := now } :: post,
            true))
  ∧ ((∀ b ∈ bills, b.id ≠ effectiveId form freshId) →
      upsertBillFromForm bills form freshId now =
        (bills ++ [{ id := effectiveId form freshId, name := trimJS form.nameField,
                     amount := parseMoney form.amountField, dueDate := dt,
                     recurrence := form.recurrenceField, notes := notesOf form,
                     paid := false, createdAt := now, updatedAt := now }],
          true)) := by
  constructor
  · rintro pre p post rfl hpid hpre
    have hfind := find?_id_append pre post p _ hpid hpre
    simp only [upsertBillFromForm, hval, hdt, hfind, mkRecord]
    rw [setFirst_append pre post p _ _ hpid hpre]
  · intro habs
    have hfind := find?_id_none bills _ habs
    simp only [upsertBillFromForm, hval, hdt, hfind, mkRecord]

/-- The form used by the C8 witness: empty id field, so the fresh uid
becomes the record's id. -/
def c8Form : BillForm :=
  { idField := "", nameField := " Internet ", amountField := some 50,
    dueField := "2024-06-01", recurrenceField := Recurrence.none,
    notesField := "" }

/-- Witness for C8 on the insert branch: upserting into the empty store
appends exactly one record with the trimmed name, the parsed amount,
`paid = false` and `createdAt = updatedAt = now`. -/
theorem upsert_frame_spec_witness :
    upsertBillFromForm [] c8Form "fresh-1" "T1" =
      ([{ id := "fresh-1", name := "Internet", amount := 50, dueDate := ⟨2024, 6, 1⟩,
          recurrence := Recurrence.none, notes := Option.none, paid := false,
          createdAt := "T1", updatedAt := "T1" }], true) := by
  have h := (upsert_frame_spec [] c8Form "fresh-1" "T1" ⟨2024, 6, 1⟩ (by decide)
    (by decide)).2 (by simp)
  exact h.trans (by decide)

/-! ## Claim C4 — urgency classification -/

/-- C4: `dueClass` (the spec's `classify`) is a total function of the
bill and the reference date; `paid` wins regardless of the date, and
otherwise a defined day count decides: negative is overdue, 0..7 is
due-soon (so exactly 7 days out is due-soon and 8 days out is ok),
larger is ok. -/
theorem dueClass_spec (b : Bill) (today : CivDate) :
    (b.paid = true → dueClass b today = DueClass.paid)
  ∧ (b.paid = false → ∀ d, daysUntil b.dueDate today = some d →
      dueClass b today =
        (if d < 0 then DueClass.overdue
         else if 0 ≤ d ∧ d ≤ 7 then DueClass.due
         else DueClass.ok)) := by
  constructor
  · intro hp
    simp [dueClass, hp]
  · intro hp d hd
    simp only [dueClass, hp, jsLt, jsLe, hd, Bool.false_eq_true, if_false,
      decide_eq_true_eq]
    split_ifs <;> first | rfl | omega

/-- An unpaid bill due 2024-06-08, the spec's due-soon boundary
example. -/
def c4Bill (dt : CivDate) : Bill :=
  { id := "c4", name := "Card", amount := 5, dueDate := dt,
    recurrence := Recurrence.none, notes := Option.none, paid := false,
    createdAt := "T0", updatedAt := "T0" }

/-- The spec's boundary examples, evaluated: on 2024-06-01 a bill due
2024-06-08 (7 days out) classifies due-soon and one due 2024-06-09
(8 days out) classifies ok; one due 2024-05-31 is overdue; a paid bill
classifies paid regardless. -/
theorem dueClass_boundary_examples :
    dueClass (c4Bill ⟨2024, 6, 8⟩) ⟨2024, 6, 1⟩ = DueClass.due
  ∧ dueClass (c4Bill ⟨2024, 6, 9⟩) ⟨2024, 6, 1⟩ = DueClass.ok
  ∧ dueClass (c4Bill ⟨2024, 5, 31⟩) ⟨2024, 6, 1⟩ = DueClass.overdue
  ∧ dueClass { c4Bill ⟨2024, 5, 31⟩ with paid := true } ⟨2024, 6, 1⟩ = DueClass.paid := by
  decide

/-! ## Claim C5 — the computed view -/

/-- The status conditions as the claim states them (spec §4.4 step 2),
over a day count that exists only for real calendar dates. -/
def specStatusProp (status : StatusFilter) (today : CivDate) (b : Bill) : Prop :=
  match status with
  | .due => b.paid = false ∧ ∃ d, daysUntil b.dueDate today = some d ∧ 0 ≤ d ∧ d ≤ 7
  | .overdue => b.paid = false ∧ ∃ d, daysUntil b.dueDate today = some d ∧ d < 0
  | .paid => b.paid = true
  | .unpaid => b.paid = false
  | .all => True

theorem renderPred_eq_specVisible (query : String) (status : StatusFilter)
    (today : CivDate) (b : Bill) :
    renderPred (toLowerJS query) status today b = specVisible query status today b := by
  unfold renderPred specVisible specTextMatch
  cases hm : (strIncludes (toLowerJS b.name) (toLowerJS query) ||
      strIncludes (toLowerJS (b.notes.getD "")) (toLowerJS query))
  · simp [hm]
  · simp only [hm, Bool.not_true, Bool.true_and, if_false, Bool.false_eq_true]
    unfold specStatusMatch
    rcases hd : daysUntil b.dueDate today with _ | d <;>
      cases status <;> simp [jsLt, jsLe, jsGe, hd, Bool.and_assoc]

theorem specStatusMatch_iff (status : StatusFilter) (today : CivDate) (b : Bill) :
    specStatusMatch status today b = true ↔ specStatusProp status today b := by
  unfold specStatusMatch specStatusProp
  rcases hd : daysUntil b.dueDate today with _ | d <;>
    cases status <;> simp [hd]

/-- C5: the view `render` computes returns exactly the bills whose
lowercased name or notes (empty string when absent) contain the
lowercased query as a substring — the empty query matches every
string — and which satisfy the claimed status condition; the visible
list is a sublist of the store (insertion order, no re-sort), the count
is its length, and the unpaid total sums the amounts of its unpaid
entries, excluding paid bills even when the filter includes them. -/
theorem render_view_spec (bills : List Bill) (query : String) (status : StatusFilter)
    (today : CivDate) :
    ((render bills query status today).1 = bills.filter (specVisible query status today))
  ∧ List.Sublist (render bills query status today).1 bills
  ∧ (∀ b, specVisible query status today b = true ↔
      ((∃ l r, (toLowerJS b.name).toList = l ++ (toLowerJS query).toList ++ r) ∨
       (∃ l r, (toLowerJS (b.notes.getD "")).toList = l ++ (toLowerJS query).toList ++ r))
      ∧ specStatusProp status today b)
  ∧ (∀ s : String, strIncludes s "" = true)
  ∧ ((render bills query status today).2.1 = (render bills query status today).1.length)
  ∧ ((render bills query status today).2.2 =
      (((render bills query status today).1.filter (fun b => !b.paid)).map Bill.amount).sum) := by
  have hfil : (render bills query status today).1 =
      bills.filter (specVisible query status today) := by
    unfold render
    exact List.filter_congr fun b _ => renderPred_eq_specVisible query status today b
  refine ⟨hfil, ?_, ?_, ?_, rfl, ?_⟩
  · rw [hfil]
    exact List.filter_sublist bills
  · intro b
    simp only [specVisible, Bool.and_eq_true, specTextMatch, Bool.or_eq_true,
      strIncludes_iff, specStatusMatch_iff]
  · intro s
    exact (strIncludes_iff s "").mpr ⟨[], s.toList, by simp⟩
  · show List.foldl _ 0 _ = _
    rw [foldl_unpaid_total]
    simp only [zero_add]
    rfl

/-! ## Claim C6 — the due-reminder selection -/

/-- C6: `selectDue` (the `dueNow` filter of `maybeNotifyDue`) returns
exactly the unpaid bills whose day count is between -3 and 0 inclusive,
in store order (a bill 3 days overdue is included, 4 days overdue is
excluded — see the witness); the notification truncates the list to its
first 4 entries and formats each as `<name> (<amount>) <today|Nd
overdue>`; an empty selection is valid and fires no notification. -/
theorem selectDue_notify_spec (bills : List Bill) (today : CivDate) (fmtMoney : ℚ → String) :
    (selectDue bills today = bills.filter (specSelectDue today))
  ∧ List.Sublist (selectDue bills today) bills
  ∧ (∀ b, b ∈ selectDue bills today ↔
      b ∈ bills ∧ b.paid = false ∧
        ∃ d, daysUntil b.dueDate today = some d ∧ -3 ≤ d ∧ d ≤ 0)
  ∧ (notifyPayload bills today fmtMoney = Option.none ↔ selectDue bills today = [])
  ∧ (∀ t body, notifyPayload bills today fmtMoney = some (t, body) →
      body = String.intercalate "\n"
        (((selectDue bills today).take 4).map (fmtLine fmtMoney today)))
  ∧ (∀ b ∈ selectDue bills today, ∃ d, daysUntil b.dueDate today = some d ∧
      -3 ≤ d ∧ d ≤ 0 ∧
      fmtLine fmtMoney today b =
        b.name ++ " (" ++ fmtMoney b.amount ++ ") " ++
          (if d = 0 then "today" else toString (-d) ++ "d overdue")) := by
  have hsel : selectDue bills today = bills.filter (specSelectDue today) := by
    unfold selectDue
    refine List.filter_congr fun b _ => ?_
    rcases hd : daysUntil b.dueDate today with _ | d <;>
      simp [specSelectDue, jsLe, jsGe, hd, Bool.and_assoc, Bool.and_comm]
  have hmem : ∀ b, b ∈ selectDue bills today ↔
      b ∈ bills ∧ b.paid = false ∧
        ∃ d, daysUntil b.dueDate today = some d ∧ -3 ≤ d ∧ d ≤ 0 := by
    intro b
    rw [hsel]
    simp only [List.mem_filter, specSelectDue, Bool.and_eq_true, Bool.not_eq_true']
    rcases hd : daysUntil b.dueDate today with _ | d <;> simp [hd, and_assoc]
  refine ⟨hsel, ?_, hmem, ?_, ?_, ?_⟩
  · rw [hsel]
    exact List.filter_sublist bills
  · unfold notifyPayload
    dsimp only
    split_ifs with h
    · simp [List.length_eq_zero.mp h]
    · simp only [List.length_eq_zero] at h
      simp [h]
  · intro t body h
    unfold notifyPayload at h
    dsimp only at h
    split_ifs at h
    all_goals
      have hh := Option.some.inj h
      rw [Prod.ext_iff] at hh
      exact hh.2.symm
  · intro b hb
    obtain ⟨-, hp, d, hd, h3, h0⟩ := (hmem b).mp hb
    refine ⟨d, hd, h3, h0, ?_⟩
    unfold fmtLine
    rw [hd]
    rfl

/-- Bills for the view/notification examples. -/
def c5BillA : Bill :=
  { id := "v1", name := "Rent", amount := 100, dueDate := ⟨2024, 6, 5⟩,
    recurrence := Recurrence.none, notes := Option.none, paid := false,
    createdAt := "T0", updatedAt := "T0" }

/-- A paid bill whose amount must not enter the unpaid total. -/
def c5BillB : Bill :=
  { id := "v2", name := "Net", amount := 50, dueDate := ⟨2024, 6, 6⟩,
    recurrence := Recurrence.none, notes := Option.none, paid := true,
    createdAt := "T0", updatedAt := "T0" }

/-- The spec's §8 example: with `[{amount:100, paid:false},
{amount:50, paid:true}]` and filter `all`, the unpaid total is 100 and
both bills are visible. -/
theorem render_total_example :
    (render [c5BillA, c5BillB] "" StatusFilter.all ⟨2024, 6, 1⟩).1 = [c5BillA, c5BillB]
  ∧ (render [c5BillA, c5BillB] "" StatusFilter.all ⟨2024, 6, 1⟩).2.2 = 100 := by
  constructor
  · show List.filter _ _ = _
    rw [List.filter_cons_of_pos (by decide), List.filter_cons_of_pos (by decide)]
    rfl
  · show List.foldl _ 0 (List.filter _ _) = 100
    rw [List.filter_cons_of_pos (by decide), List.filter_cons_of_pos (by decide)]
    rw [show List.filter _ ([] : List Bill) = [] from rfl]
    rw [List.foldl_cons, List.foldl_cons, List.foldl_nil]
    norm_num [c5BillA, c5BillB]

/-- An unpaid bill for the notification-window example. -/
def c6Bill (i : String) (dt : CivDate) : Bill :=
  { id := i, name := "Gas", amount := 5, dueDate := dt,
    recurrence := Recurrence.none, notes := Option.none, paid := false,
    createdAt := "T0", updatedAt := "T0" }

/-- The spec's §8 window example: on 2024-06-10 an unpaid bill due
2024-06-07 (3 days overdue) is selected and one due 2024-06-06 (4 days
overdue) is not; the selected bill's line reads "3d overdue". -/
theorem selectDue_window_example :
    selectDue [c6Bill "n1" ⟨2024, 6, 7⟩, c6Bill "n2" ⟨2024, 6, 6⟩] ⟨2024, 6, 10⟩ =
      [c6Bill "n1" ⟨2024, 6, 7⟩]
  ∧ dueTextOf (daysUntil ⟨2024, 6, 7⟩ ⟨2024, 6, 10⟩) = "3d overdue"
  ∧ dueTextOf (daysUntil ⟨2024, 6, 10⟩ ⟨2024, 6, 10⟩) = "today" := by
  refine ⟨by decide, ?_, by decide⟩
  show dueTextOf (some (-3)) = "3d overdue"
  decide

/-! ## Claim C10 — the format check against calendar validity -/

/-- Counterexample to C10 as stated: "2024-13-45" passes the 4-2-2 digit
format test `dateRegex.test` yet does not denote a valid calendar date,
and `daysUntil` on its triple is NaN (`none`), not a well-defined signed
integer. -/
theorem dateRegex_admits_invalid_date :
    dateRegexTest "2024-13-45" = true
  ∧ parseDateShape "2024-13-45" = some ⟨2024, 13, 45⟩
  ∧ isValidDate ⟨2024, 13, 45⟩ = false
  ∧ daysUntil ⟨2024, 13, 45⟩ ⟨2024, 6, 1⟩ = Option.none := by
  refine ⟨rfl, rfl, rfl, rfl⟩

/-- C10 amended: every string the upsert validation accepts matches the
4-2-2 digit shape (it spells some digit triple), but the shape does not
guarantee a calendar date: `daysUntil` on the accepted string's triple
is a well-defined signed integer exactly when the triple is a real
calendar date, and the NaN (`none`) otherwise. -/
theorem daysUntil_defined_iff_valid (s : String) (dt : CivDate) (today : CivDate)
    (h : parseDateShape s = some dt) :
    dateRegexTest s = true
  ∧ ((daysUntil dt today).isSome = true ↔ isValidDate dt = true)
  ∧ (isValidDate dt = true → daysUntil dt today = some (toDays dt - toDays today)) := by
  refine ⟨by simp [dateRegexTest, h], ?_, ?_⟩
  · unfold daysUntil
    split_ifs with hv <;> simp [hv]
  · intro hv
    simp [daysUntil, hv]

/-- Witness for the amended C10 on an accepted, calendar-valid string. -/
theorem daysUntil_defined_iff_valid_witness :
    dateRegexTest "2024-06-08" = true
  ∧ daysUntil ⟨2024, 6, 8⟩ ⟨2024, 6, 1⟩ = some 7 := by
  have h := daysUntil_defined_iff_valid "2024-06-08" ⟨2024, 6, 8⟩ ⟨2024, 6, 1⟩ (by decide)
  exact ⟨h.1, (h.2.2 (by decide)).trans (by decide)⟩

/-! ## Claim C2 — no stored paid-and-recurring bill -/

/-- The first upsert of the C2 counterexample: a non-recurring bill with
an explicit id. -/
def c2Form1 : BillForm :=
  { idField := "r1", nameField := "Rent", amountField := some 10,
    dueField := "2024-06-01", recurrenceField := Recurrence.none,
    notesField := "" }

/-- The editing upsert of the C2 counterexample: same id, recurrence
switched to monthly.  The upsert preserves the prior `paid` but replaces
`recurrence` (main.ts:323/325). -/
def c2Form2 : BillForm :=
  { idField := "r1", nameField := "Rent", amountField := some 10,
    dueField := "2024-06-01", recurrenceField := Recurrence.monthly,
    notesField := "" }

/-- Counterexample to C2 as stated: from the empty store, upsert a
non-recurring bill, toggle it paid, then edit it (upsert with the same
id) switching its recurrence to monthly.  The resulting store — reached
by upsert/togglePaid/upsert alone — contains a bill with
`recurrence ≠ none` and `paid = true`. -/
theorem recurring_paid_state_reachable :
    ∃ b ∈ (upsertBillFromForm
        (toggleAction (upsertBillFromForm [] c2Form1 "g1" "T1").1 "r1" "T2").1
        c2Form2 "g2" "T3").1,
      b.recurrence ≠ Recurrence.none ∧ b.paid = true := by decide

/-- C2 amended: restricted to inserting upserts (fresh effective id,
calendar-valid due date), deletes and toggle-paid — everything except
the editing upsert the counterexample uses — every reachable store state
satisfies `StoreInv`: all stored due dates are calendar-valid and no
bill ever has `recurrence ≠ none` and `paid = true` simultaneously; in
particular toggle-paid itself never stores a paid recurring bill. -/
theorem reach_no_paid_recurring (bills : List Bill) (h : Reach bills) :
    StoreInv bills := by
  induction h with
  | init =>
    intro b hb
    exact absurd hb (List.not_mem_nil b)
  | insert bills form freshId now h hfresh hdate ih =>
    rcases hv : validateBillForm form with _ | msg
    · rcases hdt : parseDateShape form.dueField with _ | dt
      · intro b hb
        simp only [upsertBillFromForm, hv, hdt] at hb
        exact ih b hb
      · have hfind := find?_id_none bills _ hfresh
        intro b hb
        simp only [upsertBillFromForm, hv, hdt, hfind] at hb
        rcases List.mem_append.mp hb with hold | hnew
        · exact ih b hold
        · have hbr : b = mkRecord form dt (effectiveId form freshId) Option.none now := by
            simpa using hnew
          subst hbr
          exact ⟨hdate dt hdt, fun _ => rfl⟩
    · intro b hb
      simp only [upsertBillFromForm, hv] at hb
      exact ih b hb
  | del bills id h ih =>
    intro b hb
    exact ih b (mem_deleteAction bills id b hb)
  | toggle bills id now h ih =>
    intro b hb
    rcases mem_toggleAction bills id now b hb with hold | ⟨p, hp, hpe⟩
    · exact ih b hold
    · obtain ⟨hval, hinv⟩ := ih p hp
      subst hpe
      rcases hpaid : p.paid with _ | _
      · by_cases hrec : p.recurrence = Recurrence.none
        · rw [togglePaidBill_unpaid_none p now hpaid hrec]
          exact ⟨hval, fun hc => absurd hrec hc⟩
        · obtain ⟨nd, hnd⟩ := Option.isSome_iff_exists.mp
            (nextRecurringDate_isSome p.dueDate p.recurrence hval)
          rw [togglePaidBill_unpaid_rec p now hpaid hrec nd hnd]
          exact ⟨isValidDate_nextRecurringDate _ _ _ hval hnd, fun _ => rfl⟩
      · rw [togglePaidBill_paid p now hpaid]
        exact ⟨hval, fun _ => rfl⟩

/-- The insert of the C2 witness: a fresh monthly bill. -/
def c2wForm : BillForm :=
  { idField := "w1", nameField := "Power", amountField := some 60,
    dueField := "2024-06-01", recurrenceField := Recurrence.monthly,
    notesField := "" }

/-- Witness for the amended C2: the concrete state reached by inserting
a monthly bill and toggling it paid satisfies the invariant (the toggle
rolled the due date instead of storing `paid = true`). -/
theorem reach_no_paid_recurring_witness :
    StoreInv (toggleAction (upsertBillFromForm [] c2wForm "g9" "T1").1 "w1" "T2").1 :=
  reach_no_paid_recurring _
    (Reach.toggle _ "w1" "T2"
      (Reach.insert [] c2wForm "g9" "T1" Reach.init (by simp)
        (by
          intro dt hdt
          have h0 : parseDateShape c2wForm.dueField = some ⟨2024, 6, 1⟩ := rfl
          rw [h0] at hdt
          cases Option.some.inj hdt
          decide)))
